import Mathlib

/-!
Shallow embedding of src/jni/venus/Makeup.cpp (namespace venus, class Makeup).

Conventions of the embedding:
* cv::Point2f coordinates are idealized as real numbers; the float32 trig
  computations of the source become Real.sin / Real.cos.
* A landmark set is a total function from indices to points; the source only
  reads a fixed handful of indices, so the length precondition
  (points.size() == Feature::COUNT, with Feature.h not among the repository
  files) is left out of the model.
* Machine integers become Nat / Int with explicit % 2^w, / and *, mirroring
  the bit operations of the source on their valid ranges: for a 32-bit color,
  color >> 24 is color / 2^24, color & 0x00FFFFFF is color % 2^24, and
  x | (alpha << 24) with x < 2^24 is x + alpha * 2^24.
* Pixel samples in the blend paths are rationals so that the per-pixel maps
  are exact and decidable on concrete inputs.
-/

/-- Planar point, the embedding of cv::Point2f. -/
@[ext] structure Point2f where
  x : ℝ
  y : ℝ

/-- Componentwise sum of two points (cv::Point2f operator +). -/
noncomputable def padd (p q : Point2f) : Point2f := ⟨p.x + q.x, p.y + q.y⟩

/-- Componentwise difference of two points (cv::Point2f operator -). -/
noncomputable def psub (p q : Point2f) : Point2f := ⟨p.x - q.x, p.y - q.y⟩

/-- Scaling of a point by a scalar on the left (radius * point). -/
noncomputable def smul (a : ℝ) (p : Point2f) : Point2f := ⟨a * p.x, a * p.y⟩

/-- Division of a point by a scalar (cv::Point2f operator /). -/
noncomputable def pdiv (p : Point2f) (a : ℝ) : Point2f := ⟨p.x / a, p.y / a⟩

/-- Euclidean distance of two points. -/
noncomputable def pdist (p q : Point2f) : ℝ :=
  Real.sqrt ((p.x - q.x) ^ 2 + (p.y - q.y) ^ 2)

/-- Squared distance of two points, used to state that a sample lies on a
circle. -/
noncomputable def distSq (p q : Point2f) : ℝ :=
  (p.x - q.x) ^ 2 + (p.y - q.y) ^ 2

/-- Landmark alias selection at the head of Makeup::createPolygon
(Makeup.cpp lines 86..93): each alias reads one index for the right side and
a mirrored index for the left side. -/
def pick (points : ℕ → Point2f) (right : Bool) (ir il : ℕ) : Point2f :=
  points (if right then ir else il)

/-- Sample i of Makeup::createHeartShape (Makeup.cpp lines 62..78): the
source computes sin and cos of t once and derives cos 2t, cos 3t, cos 4t by
the double and triple angle products written in the loop body. -/
noncomputable def heartPoint (center : Point2f) (radius angle : ℝ) (i : ℕ) : Point2f :=
  let t : ℝ := i * (2 * Real.pi / 32)
  let sint := Real.sin t
  let cost := Real.cos t
  let sin2t := 2 * sint * cost
  let cos2t := cost * cost - sint * sint
  let cos3t := cost * cos2t - sint * sin2t
  let cos4t := cos2t * cos2t - sin2t * sin2t
  let x := sint * sint * sint
  let y := (13 * cost - 5 * cos2t - 2 * cos3t - cos4t) / (-16)
  let cosa := Real.cos angle
  let sina := Real.sin angle
  ⟨center.x + radius * (x * cosa - y * sina),
   center.y + radius * (x * sina + y * cosa)⟩

/-- Makeup::createHeartShape (Makeup.cpp lines 47..80): N = 32 samples. -/
noncomputable def createHeartShape (center : Point2f) (radius angle : ℝ) : List Point2f :=
  (List.range 32).map (heartPoint center radius angle)

/-- Restatement of the heart-curve sample following the words of the claim:
x = sin^3 t, y = -(13 cos t - 5 cos 2t - 2 cos 3t - cos 4t)/16 at
t = i*2*pi/32, rotated by angle, scaled by radius, translated by center. -/
noncomputable def heartPointClaim (center : Point2f) (radius angle : ℝ) (i : ℕ) : Point2f :=
  let t : ℝ := i * (2 * Real.pi / 32)
  let x := Real.sin t ^ 3
  let y := -((13 * Real.cos t - 5 * Real.cos (2 * t) - 2 * Real.cos (3 * t) -
      Real.cos (4 * t)) / 16)
  ⟨center.x + radius * (x * Real.cos angle - y * Real.sin angle),
   center.y + radius * (x * Real.sin angle + y * Real.cos angle)⟩

/-- Center of the DISK branch of Makeup::createPolygon (Makeup.cpp line 103):
x is the midpoint of the two selected x coordinates, y is the y coordinate of
landmark alias 62 alone. -/
noncomputable def diskCenter (points : ℕ → Point2f) (right : Bool) : Point2f :=
  let p02 := pick points right 2 10
  let p62 := pick points right 62 58
  ⟨(p62.x + p02.x) / 2, p62.y⟩

/-- Radius of the DISK branch (Makeup.cpp line 104). -/
noncomputable def diskRadius (points : ℕ → Point2f) (right : Bool) : ℝ :=
  let p02 := pick points right 2 10
  let p62 := pick points right 62 58
  |p62.x - p02.x| / 2

/-- Angle parameter of sample i in the DISK branch (Makeup.cpp line 109):
the source computes t = i / (float)(2 * M_PI) * N with N = 12. -/
noncomputable def diskAngle (i : ℕ) : ℝ := i / (2 * Real.pi) * 12

/-- DISK branch of Makeup::createPolygon (Makeup.cpp lines 101..114). -/
noncomputable def createPolygonDisk (points : ℕ → Point2f) (right : Bool) : List Point2f :=
  let center := diskCenter points right
  let radius := diskRadius points right
  (List.range 12).map fun i =>
    ⟨center.x + radius * Real.cos (diskAngle i),
     center.y + radius * Real.sin (diskAngle i)⟩

/-- Restatement of the DISK polygon following the words of the claim: center
the midpoint of the two selected landmark points, radius half their
horizontal distance, sample i at angle i*2*pi/12 starting at 0. -/
noncomputable def createPolygonDiskClaim (points : ℕ → Point2f) (right : Bool) : List Point2f :=
  let p02 := pick points right 2 10
  let p62 := pick points right 62 58
  let center : Point2f := ⟨(p62.x + p02.x) / 2, (p62.y + p02.y) / 2⟩
  let radius := |p62.x - p02.x| / 2
  (List.range 12).map fun (i : ℕ) =>
    let t : ℝ := i * (2 * Real.pi) / 12
    ⟨center.x + radius * Real.cos t, center.y + radius * Real.sin t⟩

/-- Modelled from the spec: venus::catmullRomSpline is declared outside the
repository files (venus/Scalar.h), so it is modelled after the words of the
spec as a centripetal-style Catmull-Rom spline across four control points
(Barry-Goldman pyramid with knot increments the square roots of the chord
lengths), evaluated at parameter t between the two inner knots. Only the
arity and totality of this definition matter to the claims below. -/
noncomputable def catmullRomSpline (t : ℝ) (p0 p1 p2 p3 : Point2f) : Point2f :=
  let t0 : ℝ := 0
  let t1 := t0 + Real.sqrt (pdist p0 p1)
  let t2 := t1 + Real.sqrt (pdist p1 p2)
  let t3 := t2 + Real.sqrt (pdist p2 p3)
  let u := t1 + t * (t2 - t1)
  let a1 := padd (smul ((t1 - u) / (t1 - t0)) p0) (smul ((u - t0) / (t1 - t0)) p1)
  let a2 := padd (smul ((t2 - u) / (t2 - t1)) p1) (smul ((u - t1) / (t2 - t1)) p2)
  let a3 := padd (smul ((t3 - u) / (t3 - t2)) p2) (smul ((u - t2) / (t3 - t2)) p3)
  let b1 := padd (smul ((t2 - u) / (t2 - t0)) a1) (smul ((u - t0) / (t2 - t0)) a2)
  let b2 := padd (smul ((t3 - u) / (t3 - t1)) a2) (smul ((u - t1) / (t3 - t1)) a3)
  padd (smul ((t2 - u) / (t2 - t1)) b1) (smul ((u - t1) / (t2 - t1)) b2)

/-- OVAL branch of Makeup::createPolygon (Makeup.cpp lines 117..128): a list
of seven vertices. -/
noncomputable def createPolygonOval (points : ℕ → Point2f) (right : Bool) : List Point2f :=
  let p00 := pick points right 0 12
  let p01 := pick points right 1 11
  let p02 := pick points right 2 10
  let p33 := pick points right 33 32
  let p41 := pick points right 41 51
  let p61 := pick points right 61 59
  let p62 := pick points right 62 58
  [ pdiv (padd p00 (smul 2 p01)) 3,
    p01,
    pdiv (padd (smul 2 p01) p02) 3,
    pdiv (padd p01 (smul 2 p02)) 3,
    ⟨p33.x, p61.y⟩,
    p62,
    ⟨p41.x, (points 53).y⟩ ]

/-- TRIANGLE branch of Makeup::createPolygon (Makeup.cpp lines 130..144):
the vector `down` computed at the head of the branch is never used by the
source, and the returned initializer list has seven entries. -/
noncomputable def createPolygonTriangle (points : ℕ → Point2f) (right : Bool) : List Point2f :=
  let p00 := pick points right 0 12
  let p01 := pick points right 1 11
  let p02 := pick points right 2 10
  let p03 := pick points right 3 9
  let p33 := pick points right 33 32
  let p62 := pick points right 62 58
  [ ⟨p33.x, p62.y⟩,
    pdiv (padd p02 p03) 2,
    p02,
    catmullRomSpline (2 / 3) p00 p01 p02 p03,
    catmullRomSpline (1 / 3) p00 p01 p02 p03,
    p01,
    pdiv (padd p00 (smul 2 p01)) 3 ]

/-- Knot index table of the SEAGULL branch (Makeup.cpp lines 168..170). -/
def seagullKnot (right : Bool) (i : ℕ) : ℕ :=
  (if right then [42, 22, 23, 24, 25] else [43, 29, 30, 31, 26]).getD i 0

/-- Entry j of the SEAGULL polygon (Makeup.cpp lines 176..189). The source
fills a vector of size 10: entry 0 and entry 5 directly, and for i = 1..4
entry i with offset 3*(dot * down) and entry 10-i with offset 2*(dot * down);
entry j for j = 6..9 therefore comes from knot index 10-j with factor 2. -/
noncomputable def seagullPoint (points : ℕ → Point2f) (right : Bool) (j : ℕ) : Point2f :=
  let p01 := pick points right 1 11
  let d0 := psub (points 56) (points 53)
  let down := pdiv d0 (Real.sqrt (d0.x * d0.x + d0.y * d0.y))
  let carriage := points (seagullKnot right 0)
  if j = 0 then p01
  else if j = 5 then points (if right then 54 else 52)
  else
    let i := if j < 5 then j else 10 - j
    let point := points (seagullKnot right i)
    let d := psub carriage point
    let dot := d.x * down.x + d.y * down.y
    if j < 5 then padd point (smul 3 (smul dot down))
    else padd point (smul 2 (smul dot down))

/-- SEAGULL branch of Makeup::createPolygon (Makeup.cpp lines 166..192). -/
noncomputable def createPolygonSeagull (points : ℕ → Point2f) (right : Bool) : List Point2f :=
  (List.range 10).map (seagullPoint points right)

/-- Concrete landmark set used for counterexamples and witnesses: landmark 62
sits at (10, 10), every other landmark at the origin. -/
noncomputable def examplePoints : ℕ → Point2f := fun n =>
  if n = 62 then ⟨10, 10⟩ else ⟨0, 0⟩

/-- Sample depth of a cv::Mat: 8-bit unsigned or 32-bit float are the depths
the spec speaks about. -/
inductive CvDepth where
  | u8
  | f32
  deriving DecidableEq

/-- Channel/depth combination of a cv::Mat, the value the blend switches
dispatch on (CV_8UC4 is u8 with 4 channels, and so on). -/
structure CvFormat where
  depth : CvDepth
  channels : ℕ
  deriving DecidableEq

/-- Case enumeration of the switch in the rectangular Makeup::blend
(Makeup.cpp lines 215..264): the CV_8UC3 and CV_32FC3 cases are compiled out
by the enclosing #if 0 blocks, so only CV_8UC4 and CV_32FC4 reach a case
label; everything else falls to the default branch with assert(false). -/
def rectBlendHandled (f : CvFormat) : Bool :=
  if f = ⟨CvDepth.u8, 4⟩ then true
  else if f = ⟨CvDepth.f32, 4⟩ then true
  else false

/-- Case enumeration of the switch in the masked Makeup::blend (Makeup.cpp
lines 289..318): CV_8UC4, CV_32FC3 and CV_32FC4 have case labels; everything
else falls to the default branch with assert(false). -/
def maskedBlendHandled (f : CvFormat) : Bool :=
  if f = ⟨CvDepth.u8, 4⟩ then true
  else if f = ⟨CvDepth.f32, 3⟩ then true
  else if f = ⟨CvDepth.f32, 4⟩ then true
  else false

/-- Predicate following the words of the claim: every combination of 8-bit
unsigned or 32-bit float with 3 or 4 channels. -/
def claimSupportedFormat (f : CvFormat) : Prop :=
  (f.depth = CvDepth.u8 ∨ f.depth = CvDepth.f32) ∧ (f.channels = 3 ∨ f.channels = 4)

/-- Modelled from the spec: venus::mix (venus/Scalar.h or venus/blend.h, not
among the repository files) is the componentwise linear interpolation the
spec writes as result = lerp(dst, src, amount); one sample is modelled as a
rational so the map is exact. -/
def mix (d s amount : ℚ) : ℚ := d + (s - d) * amount

/-- Componentwise venus::mix on a four-channel sample. -/
def mixVec (d s : Fin 4 → ℚ) (amount : ℚ) : Fin 4 → ℚ :=
  fun k => mix (d k) (s k) amount

/-- Rectangle with integer origin and extent, the embedding of cv::Rect. -/
structure Rect where
  x : ℤ
  y : ℤ
  width : ℤ
  height : ℤ

/-- Intersection of two rectangles, the embedding of cv::Rect operator &:
clip to the common area and collapse to the empty rectangle when the clipped
width or height is not positive. -/
def rectIntersect (a b : Rect) : Rect :=
  let x := max a.x b.x
  let y := max a.y b.y
  let w := min (a.x + a.width) (b.x + b.width) - x
  let h := min (a.y + a.height) (b.y + b.height) - y
  if w ≤ 0 ∨ h ≤ 0 then ⟨0, 0, 0, 0⟩ else ⟨x, y, w, h⟩

/-- Membership of a pixel position (row r, column c) in a rectangle, the scan
range of the two nested loops of Makeup::blend. -/
def Rect.memP (rect : Rect) (r c : ℤ) : Prop :=
  rect.y ≤ r ∧ r < rect.y + rect.height ∧ rect.x ≤ c ∧ c < rect.x + rect.width

instance (rect : Rect) (r c : ℤ) : Decidable (Rect.memP rect r c) := by
  unfold Rect.memP
  infer_instance

/-- Integer pixel position, the embedding of cv::Point2i. -/
structure Point2i where
  x : ℤ
  y : ℤ

/-- Four-channel image with rational samples: row and column counts plus the
sample at every integer position (reads of the source stay inside bounds, so
a total data function loses nothing). -/
structure Img where
  rows : ℤ
  cols : ℤ
  data : ℤ → ℤ → Fin 4 → ℚ

/-- Overlap rectangle of the rectangular Makeup::blend (Makeup.cpp lines
211..213): the destination bounds intersected with the source rectangle
placed at origin. -/
def blendRect (dst src : Img) (origin : Point2i) : Rect :=
  rectIntersect ⟨0, 0, dst.cols, dst.rows⟩ ⟨origin.x, origin.y, src.cols, src.rows⟩

/-- Rectangular Makeup::blend (Makeup.cpp lines 201..265), CV_8UC4 / CV_32FC4
data path: result starts as a copy of dst, and every pixel of the overlap
rectangle becomes mix(dst, src, amount); the source pixel is read at the
position shifted back by origin. -/
def blend (dst src : Img) (origin : Point2i) (amount : ℚ) : Img :=
  ⟨dst.rows, dst.cols, fun r c =>
    if (blendRect dst src origin).memP r c then
      mixVec (dst.data r c) (src.data (r - origin.y) (c - origin.x)) amount
    else dst.data r c⟩

/-- Single-channel mask image with natural-number samples at integer
positions, the embedding of a CV_8UC1 cv::Mat. -/
structure GrayImg where
  rows : ℤ
  cols : ℤ
  data : ℤ → ℤ → ℕ

/-- Truncating integer division of C (rounds toward zero), used by the mask
offset computation (src.cols - mask.cols)/2 of the masked blend. -/
def cppDiv (a b : ℤ) : ℤ := Int.tdiv a b

/-- Gate of the masked Makeup::blend at one pixel (Makeup.cpp lines
277..287): the mask position is the source position shifted by the fixed
offset (srcSize - maskSize)/2, and the pixel is blended only when that
position lies inside the mask bounds and the mask value there is not 0. -/
def maskGateOpen (src : Img) (mask : GrayImg) (origin : Point2i) (r c : ℤ) : Prop :=
  let mc := (c - origin.x) - cppDiv (src.cols - mask.cols) 2
  let mr := (r - origin.y) - cppDiv (src.rows - mask.rows) 2
  (0 ≤ mc ∧ mc < mask.cols ∧ 0 ≤ mr ∧ mr < mask.rows) ∧ mask.data mr mc ≠ 0

instance (src : Img) (mask : GrayImg) (origin : Point2i) (r c : ℤ) :
    Decidable (maskGateOpen src mask origin r c) := by
  unfold maskGateOpen
  infer_instance

/-- Masked Makeup::blend (Makeup.cpp lines 267..320), CV_8UC4 / CV_32FC4 data
path: result starts as a copy of dst, and a pixel of the overlap rectangle is
blended with the uniform amount exactly when its mask gate is open; the mask
value itself never weights the blend. -/
def blendMasked (dst src : Img) (mask : GrayImg) (origin : Point2i) (amount : ℚ) : Img :=
  ⟨dst.rows, dst.cols, fun r c =>
    if (blendRect dst src origin).memP r c then
      if maskGateOpen src mask origin r c then
        mixVec (dst.data r c) (src.data (r - origin.y) (c - origin.x)) amount
      else dst.data r c
    else dst.data r c⟩

/-- Single-channel mask with flat row-major indexing, the shape Makeup::pack
iterates over (Makeup.cpp lines 28..33). -/
structure MaskImg where
  rows : ℕ
  cols : ℕ
  data : ℕ → ℕ

/-- Packed 32-bit image with flat row-major indexing, the output shape of
Makeup::pack. -/
structure PackedImg where
  rows : ℕ
  cols : ℕ
  data : ℕ → ℕ

/-- Alpha byte computed by Makeup::pack (Makeup.cpp line 35):
((color >> 24) * mask[i] + 127) / 255 in unsigned integer arithmetic. -/
def packAlpha (color m : ℕ) : ℕ := (color / 2 ^ 24 * m + 127) / 255

/-- Pixel assembled by Makeup::pack (Makeup.cpp line 40, the build with
USE_BGRA_LAYOUT unset, which is what an #if sees when the repository files
define no value for it): (color & 0x00FFFFFF) | (alpha << 24); the or of the
two disjoint bit ranges is their sum. -/
def packPixel (color m : ℕ) : ℕ := color % 2 ^ 24 + packAlpha color m * 2 ^ 24

/-- Makeup::pack (Makeup.cpp lines 23..45): an output image of the mask size
whose pixel i packs the RGB bits of color with the alpha scaled by mask
sample i. -/
def pack (mask : MaskImg) (color : ℕ) : PackedImg :=
  ⟨mask.rows, mask.cols, fun i => packPixel color (mask.data i)⟩

/-- Rounded division to the nearest integer with ties to even, the behavior
of the OpenCV expression rgb / a on cv::Vec3i (saturate_cast of the scaled
double uses cvRound, which rounds half to even; OpenCV is an external
library, its documented rounding is embedded here). -/
def divRoundNearest (n d : ℕ) : ℕ :=
  let q := n / d
  let r := n % d
  if 2 * r < d then q
  else if d < 2 * r then q + 1
  else if q % 2 = 0 then q else q + 1

/-- Byte k of a packed color as read by the unpack lambda of
Makeup::createEyeShadow (Makeup.cpp line 593): c & 0xFF, (c >> 8) & 0xFF,
(c >> 16) & 0xFF. -/
def unpackRGB (c : ℕ) (k : Fin 3) : ℕ := c / 256 ^ (k : ℕ) % 256

/-- Single-channel mask with natural row and column indices, the shape the
eye-shadow merge iterates over. -/
structure GrayImgN where
  rows : ℕ
  cols : ℕ
  data : ℕ → ℕ → ℕ

/-- Four-channel byte image with natural row and column indices, the output
shape of Makeup::createEyeShadow. -/
structure RGBAImgN where
  rows : ℕ
  cols : ℕ
  data : ℕ → ℕ → Fin 4 → ℕ

/-- Accumulated color channel k of the merge loop of Makeup::createEyeShadow
(Makeup.cpp lines 601..611) with the COUNT = 3 iterations unrolled:
rgb += _color[i] * alpha[i]. -/
def shadowAccum (color : Fin 3 → ℕ) (alpha : Fin 3 → ℕ) (k : Fin 3) : ℕ :=
  unpackRGB (color 0) k * alpha 0 + unpackRGB (color 1) k * alpha 1 +
    unpackRGB (color 2) k * alpha 2

/-- Merged pixel of Makeup::createEyeShadow at one position (Makeup.cpp
lines 601..625): color channels divided by the total alpha when it is not 0,
and the alpha channel the maximum of the three mask values; the pixel is
stored in RGBA order (the build with USE_BGRA_LAYOUT unset). -/
def shadowPixel (color : Fin 3 → ℕ) (alpha : Fin 3 → ℕ) : Fin 4 → ℕ :=
  let a := alpha 0 + alpha 1 + alpha 2
  let aMax := max (max (alpha 0) (alpha 1)) (alpha 2)
  fun ch =>
    if h : (ch : ℕ) < 3 then
      let k : Fin 3 := ⟨ch, h⟩
      if a ≠ 0 then divRoundNearest (shadowAccum color alpha k) a
      else shadowAccum color alpha k
    else aMax

/-- Makeup::createEyeShadow (Makeup.cpp lines 587..629): a bitmap of the
size of mask 0 whose pixel at (r, c) merges the three mask values there with
the three layer colors. -/
def createEyeShadow (mask : Fin 3 → GrayImgN) (color : Fin 3 → ℕ) : RGBAImgN :=
  ⟨(mask 0).rows, (mask 0).cols, fun r c =>
    shadowPixel color (fun i => (mask i).data r c)⟩

/-- Modelled from the spec: venus::lerp on bytes (venus/Scalar.h, not among
the repository files) is the per-pixel linear mix weighted by the mask alpha
that the copy-back step of Makeup::applyBrow applies to each color channel;
it is modelled with the usual rounded byte arithmetic. -/
def lerpByte (d s a : ℕ) : ℕ := (d * (255 - a) + s * a + 127) / 255

/-- Three-channel byte image at integer positions, the shape of the
inpainted patch roi of Makeup::applyBrow. -/
structure RGBImgZ where
  data : ℤ → ℤ → Fin 3 → ℕ

/-- Four-channel byte image at integer positions, the shape of the
destination of Makeup::applyBrow. -/
structure RGBAImgZ where
  data : ℤ → ℤ → Fin 4 → ℕ

/-- Mask with integer positions, the shape of roi_mask_with_margin. -/
structure GrayImgZ2 where
  data : ℤ → ℤ → ℕ

/-- Copy-back step of Makeup::applyBrow (Makeup.cpp lines 394..410): for
every (r, c) with 0 <= r < rect.height and 0 <= c < rect.width, read
alpha = roi_mask_with_margin(r + offset, c + offset); when alpha is 0 the
destination pixel at (r + rect.y, c + rect.x) is skipped, otherwise its three
color channels are rewritten with lerp(dst, roi, alpha) and its channel 3 is
never written. The map below gives the destination pixel at every absolute
position (bigR, bigC), inverting the loop indices as r = bigR - rect.y and
c = bigC - rect.x. -/
def browCopyBack (dst : RGBAImgZ) (roi : RGBImgZ) (maskM : GrayImgZ2)
    (rect : Rect) (offset : ℤ) : RGBAImgZ :=
  ⟨fun bigR bigC =>
    let r := bigR - rect.y
    let c := bigC - rect.x
    if 0 ≤ r ∧ r < rect.height ∧ 0 ≤ c ∧ c < rect.width then
      let alpha := maskM.data (r + offset) (c + offset)
      if alpha = 0 then dst.data bigR bigC
      else fun ch =>
        if h : (ch : ℕ) < 3 then
          lerpByte (dst.data bigR bigC ch) (roi.data r c ⟨ch, h⟩) alpha
        else dst.data bigR bigC ch
    else dst.data bigR bigC⟩

/-- Element i of a mapped index range, read with a default. -/
theorem getD_map_range {α : Type} (f : ℕ → α) (d : α) {i n : ℕ} (h : i < n) :
    ((List.range n).map f).getD i d = f i := by
  rw [List.getD_eq_getElem?_getD]
  simp [List.getElem?_map, List.getElem?_range, h]

/-- Rounded division never exceeds a bound B when the dividend is at most
B times the divisor. -/
theorem divRoundNearest_le (n d B : ℕ) (hd : 0 < d) (h : n ≤ B * d) :
    divRoundNearest n d ≤ B := by
  have hq : n / d ≤ B := by
    have h2 := Nat.div_le_div_right (c := d) h
    rwa [Nat.mul_div_cancel B hd] at h2
  have hmod := Nat.div_add_mod n d
  have key : 2 * (n % d) < d ∨ n / d + 1 ≤ B := by
    rcases Nat.lt_or_ge (n / d) B with hlt | hge
    · exact Or.inr (Nat.succ_le_of_lt hlt)
    · have hqB : n / d = B := le_antisymm hq hge
      rw [hqB] at hmod
      have hle : d * B + n % d ≤ d * B + 0 := by
        rw [Nat.add_zero, hmod, Nat.mul_comm]
        exact h
      have hr0 : n % d = 0 := Nat.le_zero.mp (Nat.le_of_add_le_add_left hle)
      exact Or.inl (by rw [hr0]; simpa using hd)
  simp only [divRoundNearest]
  split_ifs with h1 h2 h3
  · exact hq
  · rcases key with hk | hk
    · exact absurd hk h1
    · exact hk
  · exact hq
  · rcases key with hk | hk
    · exact absurd hk h1
    · exact hk

/-- Rounded division is exact on exact multiples. -/
theorem divRoundNearest_mul_cancel (c v : ℕ) (hv : 0 < v) :
    divRoundNearest (c * v) v = c := by
  simp only [divRoundNearest]
  rw [Nat.mul_div_cancel c hv, Nat.mul_mod_left]
  simp [hv]

/-- Claim C2, counterexample: the spec says both blend operations are defined
for every combination of 8-bit unsigned or 32-bit float with 3 or 4 channels,
but the 8-bit 3-channel combination reaches no case label in either switch of
Makeup::blend (the CV_8UC3 case of the rectangular blend is compiled out, and
the masked blend never had one), so it falls to the fatal default branch. -/
theorem blend_dispatch_claim_false :
    claimSupportedFormat ⟨CvDepth.u8, 3⟩ ∧
    rectBlendHandled ⟨CvDepth.u8, 3⟩ = false ∧
    maskedBlendHandled ⟨CvDepth.u8, 3⟩ = false :=
  ⟨⟨Or.inl rfl, Or.inl rfl⟩, rfl, rfl⟩

/-- Claim C2 (amended): the rectangular Makeup::blend dispatches exactly the
8-bit 4-channel and float 4-channel formats, the masked Makeup::blend exactly
the 8-bit 4-channel, float 3-channel and float 4-channel formats; every other
channel/depth combination, including the 8-bit 3-channel one inside the set
the claim names, falls to the default branch treated as a defect
(assert(false)). -/
theorem blend_dispatch_characterization (f : CvFormat) :
    (rectBlendHandled f = true ↔ f = ⟨CvDepth.u8, 4⟩ ∨ f = ⟨CvDepth.f32, 4⟩) ∧
    (maskedBlendHandled f = true ↔
      f = ⟨CvDepth.u8, 4⟩ ∨ f = ⟨CvDepth.f32, 3⟩ ∨ f = ⟨CvDepth.f32, 4⟩) := by
  unfold rectBlendHandled maskedBlendHandled
  constructor <;> split_ifs <;> simp_all

/-- Claim C3, counterexample: the spec says the TRIANGLE polygon has 6
points, but the initializer list returned by the TRIANGLE branch of
Makeup::createPolygon has 7 entries, here evaluated on a concrete landmark
set. -/
theorem triangle_count_claim_false :
    (createPolygonTriangle examplePoints true).length ≠ 6 := by
  simp [createPolygonTriangle]

/-- Claim C3 (amended): for every landmark set and either side flag,
createPolygon returns 7 points for OVAL, 7 points for TRIANGLE (not 6: the
branch returns seven entries) and 10 points for SEAGULL. -/
theorem polygon_point_counts (points : ℕ → Point2f) (right : Bool) :
    (createPolygonOval points right).length = 7 ∧
    (createPolygonTriangle points right).length = 7 ∧
    (createPolygonSeagull points right).length = 10 := by
  refine ⟨?_, ?_, ?_⟩ <;>
    simp [createPolygonOval, createPolygonTriangle, createPolygonSeagull]

/-- Claim C4: pack returns an image of the mask size; every pixel keeps the
low 24 RGB bits of the color unchanged and carries alpha
(alphaOf(color) * mask[i] + 127) / 255 in its high byte (the computed alpha
fits a byte, so the uint8_t store truncates nothing); with color 0x80112233
and uniform mask 255 every pixel is 0x80112233, and with uniform mask 128 the
alpha byte is 64 with the RGB bits unchanged. -/
theorem pack_spec (mask : MaskImg) (color : ℕ) (i : ℕ)
    (hc : color < 2 ^ 32) (hm : mask.data i ≤ 255) :
    (pack mask color).rows = mask.rows ∧
    (pack mask color).cols = mask.cols ∧
    packAlpha color (mask.data i) ≤ 255 ∧
    (pack mask color).data i / 2 ^ 24 = (color / 2 ^ 24 * mask.data i + 127) / 255 ∧
    (pack mask color).data i % 2 ^ 24 = color % 2 ^ 24 ∧
    (pack ⟨mask.rows, mask.cols, fun _ => 255⟩ 0x80112233).data i = 0x80112233 ∧
    (pack ⟨mask.rows, mask.cols, fun _ => 128⟩ 0x80112233).data i / 2 ^ 24 = 64 ∧
    (pack ⟨mask.rows, mask.cols, fun _ => 128⟩ 0x80112233).data i % 2 ^ 24 = 0x112233 := by
  have hpos : 0 < 2 ^ 24 := by positivity
  have halpha : packAlpha color (mask.data i) ≤ 255 := by
    have hhi : color / 2 ^ 24 ≤ 255 := by omega
    have hnum : color / 2 ^ 24 * mask.data i + 127 ≤ 65152 := by
      have := Nat.mul_le_mul hhi hm
      omega
    have h2 := Nat.div_le_div_right (c := 255) hnum
    simp only [packAlpha]
    omega
  refine ⟨rfl, rfl, halpha, ?_, ?_, ?_, ?_, ?_⟩
  · show (color % 2 ^ 24 + packAlpha color (mask.data i) * 2 ^ 24) / 2 ^ 24 = _
    rw [Nat.add_mul_div_right _ _ hpos, Nat.div_eq_of_lt (Nat.mod_lt _ hpos)]
    simp [packAlpha]
  · show (color % 2 ^ 24 + packAlpha color (mask.data i) * 2 ^ 24) % 2 ^ 24 = _
    rw [Nat.add_mul_mod_self_right, Nat.mod_mod_of_dvd _ dvd_rfl]
  · show packPixel 0x80112233 255 = 0x80112233
    decide
  · show packPixel 0x80112233 128 / 2 ^ 24 = 64
    decide
  · show packPixel 0x80112233 128 % 2 ^ 24 = 0x112233
    decide

/-- Witness for pack_spec at a concrete one-pixel mask. -/
theorem pack_spec_witness :
    (pack ⟨1, 1, fun _ => 255⟩ 0x80112233).data 0 % 2 ^ 24 = 0x80112233 % 2 ^ 24 :=
  (pack_spec ⟨1, 1, fun _ => 255⟩ 0x80112233 0 (by norm_num) (by norm_num)).2.2.2.2.1

/-- Claim C10: each merged RGB component of createEyeShadow stays within
0..255 for every mask content and every packed color (the division result is
a weighted average of byte channels, and with total alpha 0 the accumulator
itself is 0), so the in-loop range assertion can never fail. -/
theorem eye_shadow_rgb_range (mask : Fin 3 → GrayImgN) (color : Fin 3 → ℕ)
    (r c : ℕ) (k : Fin 3) :
    0 ≤ (createEyeShadow mask color).data r c k.castSucc ∧
    (createEyeShadow mask color).data r c k.castSucc ≤ 255 := by
  refine ⟨Nat.zero_le _, ?_⟩
  show shadowPixel color (fun j => (mask j).data r c) k.castSucc ≤ 255
  set alpha : Fin 3 → ℕ := fun j => (mask j).data r c with halpha
  have hk3 : ((k.castSucc : Fin 4) : ℕ) < 3 := k.isLt
  have hu : ∀ j : Fin 3, unpackRGB (color j) k ≤ 255 := by
    intro j
    simp only [unpackRGB]
    omega
  have haccum : shadowAccum color alpha k ≤ 255 * (alpha 0 + alpha 1 + alpha 2) := by
    simp only [shadowAccum]
    calc unpackRGB (color 0) k * alpha 0 + unpackRGB (color 1) k * alpha 1 +
          unpackRGB (color 2) k * alpha 2
        ≤ 255 * alpha 0 + 255 * alpha 1 + 255 * alpha 2 := by
          gcongr <;> exact hu _
      _ = 255 * (alpha 0 + alpha 1 + alpha 2) := by ring
  simp only [shadowPixel, dif_pos hk3]
  have hkk : (⟨((k.castSucc : Fin 4) : ℕ), hk3⟩ : Fin 3) = k := by
    ext
    simp
  rw [hkk]
  split_ifs with ha
  · exact divRoundNearest_le _ _ _ (Nat.pos_of_ne_zero ha) haccum
  · have h0 : alpha 0 = 0 ∧ alpha 1 = 0 ∧ alpha 2 = 0 := by omega
    simp [shadowAccum, h0.1, h0.2.1, h0.2.2]

/-- Componentwise interpolation at amount 0 returns the first argument. -/
theorem mixVec_zero (d s : Fin 4 → ℚ) : mixVec d s 0 = d := by
  funext k
  simp [mixVec, mix]

/-- Componentwise interpolation at amount 1 returns the second argument. -/
theorem mixVec_one (d s : Fin 4 → ℚ) : mixVec d s 1 = s := by
  funext k
  simp [mixVec, mix]

/-- Claim C5: rectangular blend with amount 0 leaves every pixel equal to
dst; with amount 1 every pixel of the overlap rectangle equals the
corresponding src pixel and every other pixel equals dst; for any amount, a
pixel is either untouched or inside the overlap rectangle (so a partial or
empty intersection writes nothing outside itself), and the result keeps the
destination extent. -/
theorem blend_endpoint_laws (dst src : Img) (origin : Point2i) (amount : ℚ)
    (r c : ℤ) :
    (blend dst src origin 0).data r c = dst.data r c ∧
    (blend dst src origin 1).data r c =
      (if (blendRect dst src origin).memP r c then
        src.data (r - origin.y) (c - origin.x)
      else dst.data r c) ∧
    ((blend dst src origin amount).data r c = dst.data r c ∨
      (blendRect dst src origin).memP r c) ∧
    (blend dst src origin amount).rows = dst.rows ∧
    (blend dst src origin amount).cols = dst.cols := by
  refine ⟨?_, ?_, ?_, rfl, rfl⟩
  · show (if (blendRect dst src origin).memP r c then _ else _) = _
    split_ifs with h
    · exact congrFun (congrFun (congrArg Img.data rfl) r) c ▸ mixVec_zero _ _
    · rfl
  · show (if (blendRect dst src origin).memP r c then _ else _) = _
    split_ifs with h
    · exact mixVec_one _ _
    · rfl
  · show ((if (blendRect dst src origin).memP r c then _ else _) = _) ∨ _
    split_ifs with h
    · exact Or.inr h
    · exact Or.inl rfl

/-- Claim C6: in the masked blend, a pixel of the overlap rectangle whose
mask gate is closed (its position mapped through the fixed offset
(srcSize - maskSize)/2 falls outside the mask bounds, or the mask value
there is 0) stays exactly equal to dst for any amount; a pixel whose gate is
open is blended with the full uniform amount, independent of the mask
magnitude; and every pixel is either untouched or gate-open. -/
theorem masked_blend_gating (dst src : Img) (mask : GrayImg) (origin : Point2i)
    (amount : ℚ) (r c : ℤ)
    (hin : (blendRect dst src origin).memP r c) :
    (¬ maskGateOpen src mask origin r c →
      (blendMasked dst src mask origin amount).data r c = dst.data r c) ∧
    (maskGateOpen src mask origin r c →
      (blendMasked dst src mask origin amount).data r c =
        mixVec (dst.data r c) (src.data (r - origin.y) (c - origin.x)) amount) ∧
    ((blendMasked dst src mask origin amount).data r c = dst.data r c ∨
      maskGateOpen src mask origin r c) := by
  have hd : (blendMasked dst src mask origin amount).data r c =
      (if maskGateOpen src mask origin r c then
        mixVec (dst.data r c) (src.data (r - origin.y) (c - origin.x)) amount
      else dst.data r c) := by
    show (if (blendRect dst src origin).memP r c then _ else _) = _
    rw [if_pos hin]
  refine ⟨?_, ?_, ?_⟩
  · intro hg
    rw [hd, if_neg hg]
  · intro hg
    rw [hd, if_pos hg]
  · rw [hd]
    split_ifs with hg
    · exact Or.inr hg
    · exact Or.inl rfl

/-- Witness for masked_blend_gating on concrete one-pixel images. -/
theorem masked_blend_gating_witness :
    (blendMasked (⟨1, 1, fun _ _ _ => 0⟩ : Img) (⟨1, 1, fun _ _ _ => 7⟩ : Img)
        (⟨1, 1, fun _ _ => 1⟩ : GrayImg) ⟨0, 0⟩ 1).data 0 0 =
      (⟨1, 1, fun _ _ _ => 0⟩ : Img).data 0 0 ∨
    maskGateOpen (⟨1, 1, fun _ _ _ => 7⟩ : Img) (⟨1, 1, fun _ _ => 1⟩ : GrayImg)
      ⟨0, 0⟩ 0 0 :=
  (masked_blend_gating ⟨1, 1, fun _ _ _ => 0⟩ ⟨1, 1, fun _ _ _ => 7⟩
    ⟨1, 1, fun _ _ => 1⟩ ⟨0, 0⟩ 1 0 0 (by decide)).2.2

/-- Claim C9: in the copy-back step of applyBrow, for every pixel of the brow
rectangle the alpha channel of the destination is never written; a pixel
whose margin-mask alpha is 0 is left entirely unchanged; and a pixel with
nonzero mask alpha has exactly its three color channels rewritten as the
linear mix of the old value and the inpainted patch weighted by that
alpha. -/
theorem brow_copy_back_frame (dst : RGBAImgZ) (roi : RGBImgZ)
    (maskM : GrayImgZ2) (rect : Rect) (offset bigR bigC : ℤ)
    (hin : 0 ≤ bigR - rect.y ∧ bigR - rect.y < rect.height ∧
      0 ≤ bigC - rect.x ∧ bigC - rect.x < rect.width) :
    (browCopyBack dst roi maskM rect offset).data bigR bigC 3 =
      dst.data bigR bigC 3 ∧
    (maskM.data (bigR - rect.y + offset) (bigC - rect.x + offset) = 0 →
      ∀ ch : Fin 4, (browCopyBack dst roi maskM rect offset).data bigR bigC ch =
        dst.data bigR bigC ch) ∧
    (maskM.data (bigR - rect.y + offset) (bigC - rect.x + offset) ≠ 0 →
      ∀ k : Fin 3,
        (browCopyBack dst roi maskM rect offset).data bigR bigC k.castSucc =
          lerpByte (dst.data bigR bigC k.castSucc)
            (roi.data (bigR - rect.y) (bigC - rect.x) k)
            (maskM.data (bigR - rect.y + offset) (bigC - rect.x + offset))) := by
  have hd : (browCopyBack dst roi maskM rect offset).data bigR bigC =
      (if maskM.data (bigR - rect.y + offset) (bigC - rect.x + offset) = 0 then
        dst.data bigR bigC
      else fun ch =>
        if h : (ch : ℕ) < 3 then
          lerpByte (dst.data bigR bigC ch)
            (roi.data (bigR - rect.y) (bigC - rect.x) ⟨ch, h⟩)
            (maskM.data (bigR - rect.y + offset) (bigC - rect.x + offset))
        else dst.data bigR bigC ch) := by
    show (if 0 ≤ bigR - rect.y ∧ _ ∧ _ ∧ _ then _ else _) = _
    rw [if_pos hin]
  refine ⟨?_, ?_, ?_⟩
  · rw [hd]
    split_ifs with h0
    · rfl
    · exact dif_neg (by decide)
  · intro h0 ch
    rw [hd, if_pos h0]
  · intro h0 k
    rw [hd, if_neg h0]
    have hk3 : ((k.castSucc : Fin 4) : ℕ) < 3 := k.isLt
    have hkk : (⟨((k.castSucc : Fin 4) : ℕ), hk3⟩ : Fin 3) = k := by
      ext
      simp
    rw [dif_pos hk3, hkk]

/-- Witness for brow_copy_back_frame on a concrete one-pixel rectangle. -/
theorem brow_copy_back_frame_witness :
    (browCopyBack (⟨fun _ _ _ => 5⟩ : RGBAImgZ) (⟨fun _ _ _ => 9⟩ : RGBImgZ)
        (⟨fun _ _ => 3⟩ : GrayImgZ2) ⟨0, 0, 1, 1⟩ 8).data 0 0 3 =
      (⟨fun _ _ _ => 5⟩ : RGBAImgZ).data 0 0 3 :=
  (brow_copy_back_frame ⟨fun _ _ _ => 5⟩ ⟨fun _ _ _ => 9⟩ ⟨fun _ _ => 3⟩
    ⟨0, 0, 1, 1⟩ 8 0 0 (by norm_num)).1

/-- Color channel of the merged pixel through the Fin 4 embedding. -/
theorem shadowPixel_color (color alpha : Fin 3 → ℕ) (k : Fin 3) :
    shadowPixel color alpha k.castSucc =
      (if alpha 0 + alpha 1 + alpha 2 ≠ 0 then
        divRoundNearest (shadowAccum color alpha k) (alpha 0 + alpha 1 + alpha 2)
      else shadowAccum color alpha k) := by
  have hk3 : ((k.castSucc : Fin 4) : ℕ) < 3 := k.isLt
  have hkk : (⟨((k.castSucc : Fin 4) : ℕ), hk3⟩ : Fin 3) = k := by
    ext
    simp
  simp only [shadowPixel]
  rw [dif_pos hk3, hkk]

/-- Alpha channel of the merged pixel is the running maximum. -/
theorem shadowPixel_alphaMax (color alpha : Fin 3 → ℕ) :
    shadowPixel color alpha 3 = max (max (alpha 0) (alpha 1)) (alpha 2) := by
  simp only [shadowPixel]
  rw [dif_neg (by decide)]

/-- Claim C8: createEyeShadow merges the three layers with output alpha the
maximum of the per-layer alphas, and when exactly one of the three masks is
nonzero at a pixel (value v, layer color C) the merged color channels equal
the RGB bytes of C exactly (the accumulated color divided by the accumulated
alpha collapses to C) and the merged alpha equals v. -/
theorem eye_shadow_single_layer (mask : Fin 3 → GrayImgN) (color : Fin 3 → ℕ)
    (r c : ℕ) (i : Fin 3)
    (hone : ∀ j : Fin 3, j ≠ i → (mask j).data r c = 0)
    (hnz : (mask i).data r c ≠ 0) :
    (createEyeShadow mask color).data r c 3 =
      max (max ((mask 0).data r c) ((mask 1).data r c)) ((mask 2).data r c) ∧
    (∀ k : Fin 3, (createEyeShadow mask color).data r c k.castSucc =
      unpackRGB (color i) k) ∧
    (createEyeShadow mask color).data r c 3 = (mask i).data r c := by
  refine ⟨?_, ?_, ?_⟩
  · show shadowPixel color (fun j => (mask j).data r c) 3 = _
    exact shadowPixel_alphaMax color _
  · intro k
    show shadowPixel color (fun j => (mask j).data r c) k.castSucc = _
    rw [shadowPixel_color]
    fin_cases i
    · have e1 : (mask 1).data r c = 0 := hone 1 (by decide)
      have e2 : (mask 2).data r c = 0 := hone 2 (by decide)
      have hnzb : (mask 0).data r c ≠ 0 := hnz
      simp only [shadowAccum, e1, e2, Nat.mul_zero, Nat.add_zero]
      rw [if_pos hnzb]
      exact divRoundNearest_mul_cancel _ _ (Nat.pos_of_ne_zero hnzb)
    · have e0 : (mask 0).data r c = 0 := hone 0 (by decide)
      have e2 : (mask 2).data r c = 0 := hone 2 (by decide)
      have hnzb : (mask 1).data r c ≠ 0 := hnz
      simp only [shadowAccum, e0, e2, Nat.mul_zero, Nat.add_zero, Nat.zero_add]
      rw [if_pos hnzb]
      exact divRoundNearest_mul_cancel _ _ (Nat.pos_of_ne_zero hnzb)
    · have e0 : (mask 0).data r c = 0 := hone 0 (by decide)
      have e1 : (mask 1).data r c = 0 := hone 1 (by decide)
      have hnzb : (mask 2).data r c ≠ 0 := hnz
      simp only [shadowAccum, e0, e1, Nat.mul_zero, Nat.add_zero, Nat.zero_add]
      rw [if_pos hnzb]
      exact divRoundNearest_mul_cancel _ _ (Nat.pos_of_ne_zero hnzb)
  · show shadowPixel color (fun j => (mask j).data r c) 3 = _
    rw [shadowPixel_alphaMax]
    fin_cases i
    · have e1 : (mask 1).data r c = 0 := hone 1 (by decide)
      have e2 : (mask 2).data r c = 0 := hone 2 (by decide)
      simp only [e1, e2, Nat.max_zero]
      rfl
    · have e0 : (mask 0).data r c = 0 := hone 0 (by decide)
      have e2 : (mask 2).data r c = 0 := hone 2 (by decide)
      simp only [e0, e2, Nat.max_zero, Nat.zero_max]
      rfl
    · have e0 : (mask 0).data r c = 0 := hone 0 (by decide)
      have e1 : (mask 1).data r c = 0 := hone 1 (by decide)
      simp only [e0, e1, Nat.max_zero, Nat.zero_max]
      rfl

/-- Witness for eye_shadow_single_layer: only layer 1 is present, with mask
value 9. -/
theorem eye_shadow_single_layer_witness :
    (createEyeShadow (fun j => ⟨1, 1, fun _ _ => if j = 1 then 9 else 0⟩)
        (fun _ => 11259375)).data 0 0 3 = 9 :=
  (eye_shadow_single_layer (fun j => ⟨1, 1, fun _ _ => if j = 1 then 9 else 0⟩)
    (fun _ => 11259375) 0 0 1 (by decide) (by decide)).2.2

/-- Claim C1, counterexample: the spec describes the DISK polygon as a circle
about the midpoint of the two selected landmark points sampled at angles
i*2*pi/12, but on a landmark set with landmark 2 at the origin and landmark
62 at (10, 10) the polygon of the source differs (the source centers the
circle vertically on landmark 62 alone, and steps the angle by i*12/(2*pi)
radians). -/
theorem disk_polygon_claim_false :
    createPolygonDisk examplePoints true ≠ createPolygonDiskClaim examplePoints true := by
  intro h
  have h0 := congrArg (fun l => (l.getD 0 ⟨0, 0⟩).y) h
  simp only [createPolygonDisk, createPolygonDiskClaim] at h0
  rw [getD_map_range _ _ (show (0 : ℕ) < 12 by norm_num),
    getD_map_range _ _ (show (0 : ℕ) < 12 by norm_num)] at h0
  norm_num [diskCenter, diskRadius, diskAngle, pick, examplePoints] at h0

/-- Claim C1 (amended): for every landmark set and either side flag, the DISK
branch returns a 12-point polygon sampling the circle whose center x is the
midpoint of the two selected x coordinates but whose center y is the y of the
second selected landmark alone, with radius half the horizontal distance, and
with sample i placed at angle i*12/(2*pi) (i/(2*pi)*N as the source writes
it) starting at 0 — a non-uniform parameterization rather than the even
i*2*pi/12 tiling; every sample lies exactly on that circle. -/
theorem disk_polygon_characterization (points : ℕ → Point2f) (right : Bool)
    (i : ℕ) (hi : i < 12) :
    (createPolygonDisk points right).length = 12 ∧
    (createPolygonDisk points right).getD i ⟨0, 0⟩ =
      ⟨(diskCenter points right).x + diskRadius points right * Real.cos (diskAngle i),
       (diskCenter points right).y + diskRadius points right * Real.sin (diskAngle i)⟩ ∧
    distSq ((createPolygonDisk points right).getD i ⟨0, 0⟩) (diskCenter points right) =
      diskRadius points right ^ 2 ∧
    diskCenter points right =
      ⟨((pick points right 62 58).x + (pick points right 2 10).x) / 2,
        (pick points right 62 58).y⟩ ∧
    diskRadius points right = |(pick points right 62 58).x - (pick points right 2 10).x| / 2 ∧
    diskAngle i = (i : ℝ) / (2 * Real.pi) * 12 := by
  have hpt : (createPolygonDisk points right).getD i ⟨0, 0⟩ =
      (⟨(diskCenter points right).x + diskRadius points right * Real.cos (diskAngle i),
        (diskCenter points right).y + diskRadius points right * Real.sin (diskAngle i)⟩ :
        Point2f) := by
    simp only [createPolygonDisk]
    rw [getD_map_range _ _ hi]
  refine ⟨by simp [createPolygonDisk], hpt, ?_, rfl, rfl, rfl⟩
  rw [hpt]
  show ((diskCenter points right).x + diskRadius points right * Real.cos (diskAngle i) -
      (diskCenter points right).x) ^ 2 +
    ((diskCenter points right).y + diskRadius points right * Real.sin (diskAngle i) -
      (diskCenter points right).y) ^ 2 = diskRadius points right ^ 2
  have hpyth := Real.sin_sq_add_cos_sq (diskAngle i)
  linear_combination (diskRadius points right) ^ 2 * hpyth

/-- Witness for disk_polygon_characterization at sample 5 of the concrete
landmark set. -/
theorem disk_polygon_characterization_witness :
    (createPolygonDisk examplePoints true).length = 12 :=
  (disk_polygon_characterization examplePoints true 5 (by norm_num)).1

/-- The loop body of createHeartShape equals the closed heart-curve formula:
the double, triple and quadruple angle products of the source are the
cosines of 2t, 3t and 4t. -/
theorem heartPoint_eq_claim (center : Point2f) (radius angle : ℝ) (i : ℕ) :
    heartPoint center radius angle i = heartPointClaim center radius angle i := by
  simp only [heartPoint, heartPointClaim]
  set t := (i : ℝ) * (2 * Real.pi / 32) with ht
  have h2 : Real.cos (2 * t) = Real.cos t * Real.cos t - Real.sin t * Real.sin t := by
    rw [Real.cos_two_mul']
    ring
  have hs2 : Real.sin (2 * t) = 2 * Real.sin t * Real.cos t := Real.sin_two_mul t
  have h3 : Real.cos (3 * t) =
      Real.cos t * Real.cos (2 * t) - Real.sin t * Real.sin (2 * t) := by
    rw [show (3 : ℝ) * t = t + 2 * t by ring, Real.cos_add]
  have h4 : Real.cos (4 * t) =
      Real.cos (2 * t) * Real.cos (2 * t) - Real.sin (2 * t) * Real.sin (2 * t) := by
    rw [show (4 : ℝ) * t = 2 * t + 2 * t by ring, Real.cos_add]
  apply Point2f.ext
  · dsimp only
    rw [h3, h4, h2, hs2]
    ring
  · dsimp only
    rw [h3, h4, h2, hs2]
    ring

/-- Cosine of a natural multiple of 2*pi - t equals the cosine of the same
multiple of t. -/
theorem cos_nat_mul_two_pi_sub (k : ℕ) (t : ℝ) :
    Real.cos (k * (2 * Real.pi - t)) = Real.cos (k * t) := by
  have h := Real.cos_add_nat_mul_two_pi (-((k : ℝ) * t)) k
  rw [Real.cos_neg] at h
  rw [show (k : ℝ) * (2 * Real.pi - t) = -((k : ℝ) * t) + k * (2 * Real.pi) by ring]
  exact h

/-- At angle 0, sample 32 - i of the heart curve mirrors sample i about the
vertical line through the center. -/
theorem heartPointClaim_mirror (center : Point2f) (radius : ℝ) (i : ℕ)
    (_h1 : 1 ≤ i) (hi : i < 32) :
    (heartPointClaim center radius 0 (32 - i)).x - center.x =
      -((heartPointClaim center radius 0 i).x - center.x) ∧
    (heartPointClaim center radius 0 (32 - i)).y =
      (heartPointClaim center radius 0 i).y := by
  have hle : i ≤ 32 := hi.le
  have hcast : ((32 - i : ℕ) : ℝ) = 32 - (i : ℝ) := by
    push_cast [hle]
    ring
  simp only [heartPointClaim]
  set t := (i : ℝ) * (2 * Real.pi / 32) with ht
  have hT : ((32 - i : ℕ) : ℝ) * (2 * Real.pi / 32) = 2 * Real.pi - t := by
    rw [hcast, ht]
    ring
  rw [hT]
  have e1 : Real.sin (2 * Real.pi - t) = -Real.sin t := Real.sin_two_pi_sub t
  have e1c : Real.cos (2 * Real.pi - t) = Real.cos t := Real.cos_two_pi_sub t
  have e2 : Real.cos (2 * (2 * Real.pi - t)) = Real.cos (2 * t) := by
    have h := cos_nat_mul_two_pi_sub 2 t
    norm_num at h
    exact h
  have e3 : Real.cos (3 * (2 * Real.pi - t)) = Real.cos (3 * t) := by
    have h := cos_nat_mul_two_pi_sub 3 t
    norm_num at h
    exact h
  have e4 : Real.cos (4 * (2 * Real.pi - t)) = Real.cos (4 * t) := by
    have h := cos_nat_mul_two_pi_sub 4 t
    norm_num at h
    exact h
  rw [e1, e1c, e2, e3, e4, Real.sin_zero, Real.cos_zero]
  constructor
  · dsimp only
    ring
  · dsimp only
    ring

/-- Claim C7: createHeartShape returns exactly the 32 samples of the
heart-curve formula x = sin^3 t, y = -(13 cos t - 5 cos 2t - 2 cos 3t -
cos 4t)/16 at t = i*2*pi/32, each rotated by the angle, scaled by the radius
and translated by the center; and with angle 0, for every sample there is a
sample with mirrored x offset and equal y offset about the vertical line
through the center. -/
theorem heart_shape_spec (center : Point2f) (radius angle : ℝ) (i : ℕ)
    (hi : i < 32) :
    createHeartShape center radius angle =
      (List.range 32).map (heartPointClaim center radius angle) ∧
    (createHeartShape center radius angle).length = 32 ∧
    ∃ j, j < 32 ∧
      ((createHeartShape center radius 0).getD j ⟨0, 0⟩).x - center.x =
        -(((createHeartShape center radius 0).getD i ⟨0, 0⟩).x - center.x) ∧
      ((createHeartShape center radius 0).getD j ⟨0, 0⟩).y =
        ((createHeartShape center radius 0).getD i ⟨0, 0⟩).y := by
  have hmap : createHeartShape center radius angle =
      (List.range 32).map (heartPointClaim center radius angle) := by
    unfold createHeartShape
    exact List.map_congr_left fun a _ => heartPoint_eq_claim center radius angle a
  have hmap0 : ∀ k : ℕ, k < 32 → (createHeartShape center radius 0).getD k ⟨0, 0⟩ =
      heartPointClaim center radius 0 k := by
    intro k hk
    unfold createHeartShape
    rw [getD_map_range _ _ hk]
    exact heartPoint_eq_claim center radius 0 k
  refine ⟨hmap, by simp [createHeartShape], ?_⟩
  by_cases h0 : i = 0
  · refine ⟨0, by norm_num, ?_, by rw [h0]⟩
    subst h0
    rw [hmap0 0 (by norm_num)]
    have hx0 : (heartPointClaim center radius 0 0).x = center.x := by
      simp [heartPointClaim]
    rw [hx0]
    ring
  · have h1 : 1 ≤ i := Nat.one_le_iff_ne_zero.mpr h0
    refine ⟨32 - i, by omega, ?_, ?_⟩
    · rw [hmap0 _ (by omega), hmap0 i hi]
      exact (heartPointClaim_mirror center radius i h1 hi).1
    · rw [hmap0 _ (by omega), hmap0 i hi]
      exact (heartPointClaim_mirror center radius i h1 hi).2

/-- Witness for heart_shape_spec at sample 3 of a concrete heart. -/
theorem heart_shape_spec_witness :
    createHeartShape ⟨0, 0⟩ 1 0 = (List.range 32).map (heartPointClaim ⟨0, 0⟩ 1 0) :=
  (heart_shape_spec ⟨0, 0⟩ 1 0 3 (by norm_num)).1
